import Mathlib

/-!
Shallow embedding of `src/main.py` (One-Click-Color-Picker).

The program keeps a bounded, duplicate-free, recency-ordered history of
sampled screen colors inside a `ColorPickerWindow` object.  The
embedding below translates the state of that window and its mutating
methods into pure Lean functions; external collaborators (the pixel
sampler `pyautogui.pixel`, the clipboard `pyperclip.copy`, the hotkey
registrar `keyboard.add_hotkey`/`remove_hotkey`, and the Qt view
objects) are modelled as explicit inputs/outputs of those functions.
-/

/-- A sampled color: the `(r, g, b)` triple returned by `pyautogui.pixel`
(8-bit components in the running program; the embedding does not bake in
the bound, it is stated where a claim needs it).  Equality is structural,
exactly as Python tuple equality. -/
structure Color where
  r : Nat
  g : Nat
  b : Nat
deriving DecidableEq

/-- The sixteen uppercase hexadecimal digit characters. -/
def upperHexDigits : List Char :=
  ['0','1','2','3','4','5','6','7','8','9','A','B','C','D','E','F']

/-- Uppercase hexadecimal digit characters, as produced by Python's
format specifier `X`.  Index `n < 16` yields the digit for `n`; the
default is never reached for the remainders fed to it. -/
def hexDigit (n : Nat) : Char := upperHexDigits.getD n 'X'

/-- Fuel-indexed uppercase-hex digit list of a natural number, most
significant digit first.  `fuel = n + 1` always suffices, so
`hexDigits` below is total and faithful to Python's `format(n, "X")`
for nonnegative `n`. -/
def hexDigitsAux : Nat → Nat → List Char
  | 0, _ => []
  | fuel + 1, n =>
    if n < 16 then [hexDigit n]
    else hexDigitsAux fuel (n / 16) ++ [hexDigit (n % 16)]

/-- Uppercase hex digits of `n`, no padding (Python `format(n, "X")`). -/
def hexDigits (n : Nat) : List Char := hexDigitsAux (n + 1) n

/-- Python's `"{:02X}".format(n)` for a nonnegative integer: the
uppercase hex digits, left-padded with `'0'` to width at least 2. -/
def py02X (n : Nat) : List Char :=
  List.replicate (2 - (hexDigits n).length) '0' ++ hexDigits n

/-- `rgb_to_hex` from `src/main.py` line 27:
`"#{:02X}{:02X}{:02X}".format(r, g, b)`. -/
def rgb_to_hex (r g b : Nat) : String :=
  String.mk ('#' :: (py02X r ++ py02X g ++ py02X b))

/-- `rgb_to_hex` applied to a `Color` record. -/
def rgbToHexC (c : Color) : String := rgb_to_hex c.r c.g c.b

/-- Decimal digit characters, as produced by Python's `str` on a
nonnegative integer.  Index `n < 10` yields the digit for `n`; the
default is never reached for the remainders fed to it. -/
def decDigit (n : Nat) : Char :=
  (['0','1','2','3','4','5','6','7','8','9']).getD n 'X'

/-- Fuel-indexed decimal digit list, most significant first; `fuel =
n + 1` always suffices. -/
def decDigitsAux : Nat → Nat → List Char
  | 0, _ => []
  | fuel + 1, n =>
    if n < 10 then [decDigit n]
    else decDigitsAux fuel (n / 10) ++ [decDigit (n % 10)]

/-- Python `str(n)` for a nonnegative integer, as a character list. -/
def decDigits (n : Nat) : List Char := decDigitsAux (n + 1) n

/-- The characters of Python's `str((r, g, b))` for a tuple of
nonnegative integers: `"(r, g, b)"` with a comma and a space between
components. -/
def tupleChars (c : Color) : List Char :=
  '(' :: decDigits c.r ++ ',' :: ' ' :: decDigits c.g ++ ',' :: ' ' :: decDigits c.b ++ [')']

/-- The text of one history row as built by `refresh_history_list`
(`src/main.py` line 244): `f"{hexc}    {rgb}"`, i.e. the hex string,
four spaces, then the Python tuple repr. -/
def rowChars (c : Color) : List Char :=
  ('#' :: (py02X c.r ++ py02X c.g ++ py02X c.b)) ++ [' ',' ',' ',' '] ++ tupleChars c

/-- The rendered list-widget row for a history color. -/
def renderRow (c : Color) : String := String.mk (rowChars c)

/-- Sanity check of the hex formatter against Python's output. -/
lemma rgb_to_hex_spot_check : rgb_to_hex 255 0 3 = "#FF0003" := by decide

/-- Sanity check of the row renderer against Python's f-string. -/
lemma renderRow_spot_check : renderRow ⟨255, 0, 0⟩ = "#FF0000    (255, 0, 0)" := by decide

/-- `MAX_HISTORY` from `src/main.py` line 21: the `maxlen` of the
history deque. -/
def MAX_HISTORY : Nat := 10

/-- The mutable state of `ColorPickerWindow` that the history/selection
logic touches.  `history` lists colors newest first (deque index 0 =
left end); `listRows` mirrors the text contents of the Qt list widget
(`self.list_widget`), which is rewritten by `refresh_history_list` and
emptied by `clear_history`; `status` mirrors the status label.  Hotkey
handler fields hold the registered pattern (the object
`keyboard.add_hotkey` returns is modelled by the pattern it was
registered with). -/
structure AppState where
  pick_hotkey : String
  copy_hotkey : String
  pick_handler : Option String
  copy_handler : Option String
  history : List Color
  history_index : Nat
  current_rgb : Option Color
  selected_rgb : Option Color
  listRows : List String
  status : String
  maxHistory : Nat
deriving DecidableEq

/-- The window state right after `ColorPickerWindow.__init__` (lines
62-128): default hotkeys, no handlers yet, empty history deque with the
given `maxlen`, index 0, no current or selected color. -/
def initState (cap : Nat) : AppState :=
  { pick_hotkey := "e"
    copy_hotkey := "ctrl+c"
    pick_handler := none
    copy_handler := none
    history := []
    history_index := 0
    current_rgb := none
    selected_rgb := none
    listRows := []
    status := "初始化中…"
    maxHistory := cap }

/-- The history update inside `pick_under_cursor` (lines 210-226): if
the color is already present, `remove` it (the deque drops its first,
i.e. leftmost, occurrence — the only one, by uniqueness) and
`appendleft` it; otherwise just `appendleft`.  `appendleft` on a deque
with `maxlen` discards from the right end when the deque is full, which
is `List.take cap` on the cons.  (The dead compatibility fallback at
lines 220-226 rebuilds the same list.) -/
def histAdd (cap : Nat) (c : Color) (h : List Color) : List Color :=
  if c ∈ h then (c :: h.erase c).take cap else (c :: h).take cap

/-- `pick_under_cursor` (lines 192-237).  The whole body sits in one
`try`: a failing sampler call (`pyautogui.position`/`pyautogui.pixel`
raising) reaches the `except` before any field is assigned, so only the
status label changes.  On success the method stores `current_rgb`,
merges the color into the history, resets `history_index` to 0,
refreshes the list widget, and sets `selected_rgb` to `history[0]`
(falling back to `current_rgb` if the history were empty).  The swatch
and the RGB/HEX labels are view-only and not modelled. -/
def pick_under_cursor (sample : Except String Color) (s : AppState) : AppState :=
  match sample with
  | .error e => { s with status := "取色失败: " ++ e }
  | .ok c =>
    let h := histAdd s.maxHistory c s.history
    { s with
      current_rgb := some c
      history := h
      history_index := 0
      listRows := h.map renderRow
      selected_rgb := match h with
        | [] => some c
        | x :: _ => some x
      status := "已采样并加入/更新历史: " ++ rgbToHexC c }

/-- `select_history_index` (lines 311-327): no-op on an empty history,
otherwise clamps the (Python int) index into `[0, len-1]`, stores it,
selects `list(self.history)[index]`, and updates the status.  The
clamped index is always in range, so the `getD` default is dead. -/
def select_history_index (i : Int) (s : AppState) : AppState :=
  match s.history with
  | [] => s
  | x :: xs =>
    let idx : Nat := (max 0 (min i ((x :: xs).length - 1 : Int))).toNat
    let rgb := (x :: xs).getD idx x
    { s with
      history_index := idx
      selected_rgb := some rgb
      status := "已切换历史: " ++ rgbToHexC rgb }

/-- The keyboard keys `keyPressEvent` distinguishes. -/
inductive Key where
  | up
  | down
  | other
deriving DecidableEq

/-- `keyPressEvent` (lines 329-348): with an empty history the event is
passed to the superclass (no state change).  Otherwise Up moves to
`(history_index - 1) % n` and Down to `(history_index + 1) % n`,
computed with Python's `%` on ints — which for a positive divisor is
Lean's Euclidean `%` on `Int` (nonnegative result) — and handed to
`select_history_index`. -/
def keyPressEvent (k : Key) (s : AppState) : AppState :=
  match s.history with
  | [] => s
  | _ :: _ =>
    let n : Int := (s.history.length : Int)
    match k with
    | .up => select_history_index (((s.history_index : Int) - 1) % n) s
    | .down => select_history_index (((s.history_index : Int) + 1) % n) s
    | .other => s

/-- `copy_selected_color` (lines 271-291), split into the state after
the call and the text handed to `pyperclip.copy` (`none` when the
method returns without attempting a write).  A `(0,0,0)` tuple is
truthy in Python, so `if not self.selected_rgb` tests exactly for
`None`; likewise for `current_rgb`.  A raising `pyperclip.copy` only
changes the status text, never the chosen string, so the clipboard
call is modelled as succeeding. -/
def copy_selected_color (s : AppState) : AppState × Option String :=
  match s.selected_rgb with
  | some c => ({ s with status := "已复制: " ++ rgbToHexC c }, some (rgbToHexC c))
  | none =>
    match s.history with
    | c :: _ => ({ s with status := "已复制: " ++ rgbToHexC c }, some (rgbToHexC c))
    | [] =>
      match s.current_rgb with
      | some c => ({ s with status := "已复制: " ++ rgbToHexC c }, some (rgbToHexC c))
      | none => ({ s with status := "无可复制颜色" }, none)

/-- The clipboard text a copy request would write in state `s`. -/
def copyText (s : AppState) : Option String := (copy_selected_color s).2

/-- The last whitespace-separated token of a character list: models
`txt.split()[-1]` in `on_history_clicked` (line 257).  `none` models the
`IndexError` raised when the text holds no token at all (it is caught by
the handler's `except`).  The rendered rows contain no whitespace other
than the space character, so splitting on `' '` is faithful on every
text this handler ever receives. -/
def lastWsToken (l : List Char) : Option (List Char) :=
  match l.reverse.dropWhile (fun ch => ch = ' ') with
  | [] => none
  | x :: xs => some (((x :: xs).takeWhile (fun ch => ch ≠ ' ')).reverse)

/-- Python `part.strip("()")` (line 258): remove leading and trailing
characters drawn from the set `{'(', ')'}`. -/
def stripParens (l : List Char) : List Char :=
  ((l.dropWhile (fun ch => ch = '(' ∨ ch = ')')).reverse.dropWhile
      (fun ch => ch = '(' ∨ ch = ')')).reverse

/-- Python `s.split(",")` (line 258): split at every comma, keeping
empty fields, so `"0"` gives one field and `"1,2,3"` gives three. -/
def splitCommaAux : List Char → List Char → List (List Char)
  | [], acc => [acc.reverse]
  | ch :: rest, acc =>
    if ch = ',' then acc.reverse :: splitCommaAux rest []
    else splitCommaAux rest (ch :: acc)

/-- Comma split of a whole character list. -/
def splitComma (l : List Char) : List (List Char) := splitCommaAux l []

/-- Python `int(field)` on one split field (line 259).  Python's `int`
also tolerates surrounding whitespace and a sign; on the texts this
parser ever reaches the fields are either pure digit runs or malformed
in ways that fail in both semantics, so plain digit parsing is
faithful. -/
def parseField (l : List Char) : Option Nat :=
  if l = [] then none
  else if l.all (fun ch => ch.isDigit) then
    some (l.foldl (fun n ch => n * 10 + (ch.toNat - 48)) 0)
  else none

/-- The color recovered from a clicked row's text by
`on_history_clicked` (lines 256-259): last whitespace token, strip
parens, split on commas, require exactly three integer fields (the
`r, g, b = ...` unpack raises `ValueError` on any other arity, caught by
the handler).  `none` models the caught exception. -/
def parseRowColor (txt : String) : Option Color :=
  match lastWsToken txt.toList with
  | none => none
  | some part =>
    match splitComma (stripParens part) with
    | [fr, fg, fb] =>
      match parseField fr, parseField fg, parseField fb with
      | some r, some g, some b => some ⟨r, g, b⟩
      | _, _, _ => none
    | _ => none

/-- `on_history_clicked` (lines 254-269): re-parse the clicked item's
display text back into a color.  On success it stores the parsed color
as `selected_rgb`, aligns `history_index` with the clicked row
(`list_widget.currentRow()`), and updates status/swatch/labels; every
failure inside the `try` happens before any field assignment, so on
failure only the status changes. -/
def on_history_clicked (txt : String) (row : Nat) (s : AppState) : AppState :=
  match parseRowColor txt with
  | some c =>
    { s with
      selected_rgb := some c
      history_index := row
      status := "手动选择: " ++ rgbToHexC c }
  | none => { s with status := "选择历史项出错" }

/-- One call into the external `keyboard` registrar, recorded in order
of occurrence by `register_hotkeys`. -/
inductive HkAction where
  | removePick
  | removeCopy
  | addPick (pattern : String)
  | addCopy (pattern : String)
deriving DecidableEq

/-- Whether a trace entry is an unregistration. -/
def HkAction.isRemove : HkAction → Bool
  | .removePick => true
  | .removeCopy => true
  | _ => false

/-- `register_hotkeys` (lines 135-170).  First each existing handler is
removed and cleared (the code swallows `remove_hotkey` exceptions; the
removal itself is modelled as succeeding).  Then the two
`keyboard.add_hotkey` calls are attempted one after the other, each in
its own `try`: `rp`/`rc` are their outcomes, an `error` carrying the
exception text.  A failed add clears that handler and appends its
message to `errors`; the collected errors (joined with `"；"`) or the
success text become the status.  The returned trace lists the registrar
calls in program order. -/
def register_hotkeys (rp rc : Except String Unit) (s : AppState) :
    AppState × List HkAction × List String :=
  let t1 : List HkAction := if s.pick_handler.isSome then [.removePick] else []
  let t2 : List HkAction := if s.copy_handler.isSome then [.removeCopy] else []
  let s1 := { s with pick_handler := none, copy_handler := none }
  let (s2, e1) :=
    match rp with
    | .ok _ => ({ s1 with pick_handler := some s1.pick_hotkey }, ([] : List String))
    | .error e => (s1, ["注册取色热键失败: " ++ e])
  let (s3, e2) :=
    match rc with
    | .ok _ => ({ s2 with copy_handler := some s2.copy_hotkey }, ([] : List String))
    | .error e => (s2, ["注册复制热键失败: " ++ e])
  let errs := e1 ++ e2
  let s4 :=
    { s3 with
      status :=
        if errs = [] then
          "热键已注册：取色 " ++ s.pick_hotkey ++ " / 复制 " ++ s.copy_hotkey
        else String.intercalate "；" errs }
  (s4, t1 ++ t2 ++ [.addPick s.pick_hotkey, .addCopy s.copy_hotkey], errs)

/-- `clear_history` (lines 293-298): empties the deque and the list
widget, clears the selection, resets the index, sets the status —
and touches nothing else (in particular `current_rgb` survives). -/
def clear_history (s : AppState) : AppState :=
  { s with
    history := []
    listRows := []
    selected_rgb := none
    history_index := 0
    status := "历史已清空" }

/-- One user-visible event of the running program, with the outcome of
any external call it performs: a pick (sampler outcome attached), an
arrow/other key, a click on list row `row` (Qt hands the handler the
item at the clicked row, i.e. the text the widget currently shows
there), a copy request, a clear, or a hotkey (re)registration with the
two registrar outcomes. -/
inductive Event where
  | pickEv (res : Except String Color)
  | keyEv (k : Key)
  | clickEv (row : Nat)
  | copyEv
  | clearEv
  | hotkeysEv (rp rc : Except String Unit)

/-- The state transition of one event.  A click on row `row` delivers
the text the list widget shows at that row (`listRows.getD row ""`; an
out-of-range row never occurs in Qt and parses to nothing). -/
def stepEv (e : Event) (s : AppState) : AppState :=
  match e with
  | .pickEv res => pick_under_cursor res s
  | .keyEv k => keyPressEvent k s
  | .clickEv row => on_history_clicked (s.listRows.getD row "") row s
  | .copyEv => (copy_selected_color s).1
  | .clearEv => clear_history s
  | .hotkeysEv rp rc => (register_hotkeys rp rc s).1

/-- The state after a sequence of events from startup (capacity
`MAX_HISTORY`, as in the program). -/
def run (evs : List Event) : AppState :=
  evs.foldl (fun s e => stepEv e s) (initState MAX_HISTORY)

/-- States the program can actually be in. -/
def Reachable (s : AppState) : Prop := ∃ evs, run evs = s

/-- The state after a sequence of successful picks of the given colors,
starting from a fresh window with history capacity `cap`. -/
def runPicks (cap : Nat) (cs : List Color) : AppState :=
  cs.foldl (fun s c => pick_under_cursor (.ok c) s) (initState cap)

lemma histAdd_length_le (cap : Nat) (c : Color) (h : List Color) :
    (histAdd cap c h).length ≤ cap := by
  unfold histAdd
  split <;> (rw [List.length_take]; omega)

lemma histAdd_nodup (cap : Nat) (c : Color) (h : List Color) (hn : h.Nodup) :
    (histAdd cap c h).Nodup := by
  by_cases hmem : c ∈ h
  · rw [histAdd, if_pos hmem]
    exact (List.take_sublist _ _).nodup
      (List.nodup_cons.mpr ⟨hn.not_mem_erase, hn.erase c⟩)
  · rw [histAdd, if_neg hmem]
    exact (List.take_sublist _ _).nodup (List.nodup_cons.mpr ⟨hmem, hn⟩)

lemma histAdd_cons (cap : Nat) (c : Color) (h : List Color) (hcap : 0 < cap) :
    ∃ t, histAdd cap c h = c :: t := by
  obtain ⟨k, rfl⟩ : ∃ k, cap = k + 1 := ⟨cap - 1, (Nat.succ_pred_eq_of_pos hcap).symm⟩
  unfold histAdd
  split
  · exact ⟨(h.erase c).take k, by rw [List.take_succ_cons]⟩
  · exact ⟨h.take k, by rw [List.take_succ_cons]⟩

lemma foldPicks_maxHistory (cs : List Color) :
    ∀ s : AppState,
      ((cs.foldl (fun s c => pick_under_cursor (.ok c) s) s)).maxHistory = s.maxHistory := by
  induction cs with
  | nil => intro s; rfl
  | cons c cs ih => intro s; exact ih (pick_under_cursor (.ok c) s)

lemma foldPicks_nodup (cs : List Color) :
    ∀ s : AppState, s.history.Nodup →
      ((cs.foldl (fun s c => pick_under_cursor (.ok c) s) s)).history.Nodup := by
  induction cs with
  | nil => intro s hs; exact hs
  | cons c cs ih =>
    intro s hs
    exact ih (pick_under_cursor (.ok c) s) (histAdd_nodup _ _ _ hs)

lemma foldPicks_length (cs : List Color) :
    ∀ s : AppState, s.history.length ≤ s.maxHistory →
      ((cs.foldl (fun s c => pick_under_cursor (.ok c) s) s)).history.length ≤ s.maxHistory := by
  induction cs with
  | nil => intro s hs; exact hs
  | cons c cs ih =>
    intro s hs
    have h1 : (pick_under_cursor (.ok c) s).history.length ≤ s.maxHistory :=
      histAdd_length_le _ _ _
    have h2 := ih (pick_under_cursor (.ok c) s) h1
    exact h2

/-- C4: for every sequence of `add` calls (successful picks) starting
from the empty history, no two elements of `items` are ever equal —
the history stays duplicate-free under structural `(r, g, b)`
equality, for any capacity. -/
theorem C4_add_unique (cap : Nat) (cs : List Color) : (runPicks cap cs).history.Nodup :=
  foldPicks_nodup cs (initState cap) List.nodup_nil

/-- C5: for every sequence of `add` calls starting from the empty
history, `len(items) <= capacity` holds after every call, where the
capacity is the positive integer fixed at construction (the program
uses `MAX_HISTORY = 10`). -/
theorem C5_add_bounded (cap : Nat) (hcap : 0 < cap) (cs : List Color) :
    (runPicks cap cs).history.length ≤ cap :=
  foldPicks_length cs (initState cap) (by simp [initState])

/-- Witness for C5 at capacity 3 and a concrete four-pick sequence. -/
theorem C5_add_bounded_witness :
    0 < 3 ∧
      (runPicks 3 [⟨1,0,0⟩, ⟨2,0,0⟩, ⟨3,0,0⟩, ⟨4,0,0⟩]).history.length ≤ 3 :=
  ⟨by decide, C5_add_bounded 3 (by decide) [⟨1,0,0⟩, ⟨2,0,0⟩, ⟨3,0,0⟩, ⟨4,0,0⟩]⟩

/-- C6: adding a color that is not yet present to a history already at
capacity drops exactly the oldest (last) element and shifts the rest
one position older: the new history is the new color consed onto the
old history without its last element, and the size stays at
capacity. -/
theorem C6_capacity_eviction (s : AppState) (c : Color)
    (hmem : c ∉ s.history) (hfull : s.history.length = s.maxHistory)
    (hcap : 0 < s.maxHistory) :
    (pick_under_cursor (.ok c) s).history = c :: s.history.dropLast ∧
      (pick_under_cursor (.ok c) s).history.length = s.maxHistory := by
  have hh : (pick_under_cursor (.ok c) s).history = histAdd s.maxHistory c s.history := rfl
  obtain ⟨k, hk⟩ : ∃ k, s.maxHistory = k + 1 := ⟨s.maxHistory - 1, by omega⟩
  have hstep : histAdd s.maxHistory c s.history = c :: s.history.take k := by
    unfold histAdd
    rw [if_neg hmem, hk, List.take_succ_cons]
  have hdrop : s.history.take k = s.history.dropLast := by
    rw [List.dropLast_eq_take]
    congr 1
    omega
  refine ⟨by rw [hh, hstep, hdrop], ?_⟩
  rw [hh, hstep, hdrop]
  simp [List.length_dropLast]
  omega

/-- Witness for C6: capacity 3, `add(A); add(B); add(C); add(D)` on
distinct colors ends with `items == [D, C, B]` and A evicted. -/
theorem C6_capacity_eviction_witness :
    (⟨4,0,0⟩ : Color) ∉ (runPicks 3 [⟨1,0,0⟩, ⟨2,0,0⟩, ⟨3,0,0⟩]).history ∧
      (pick_under_cursor (.ok ⟨4,0,0⟩) (runPicks 3 [⟨1,0,0⟩, ⟨2,0,0⟩, ⟨3,0,0⟩])).history =
        [⟨4,0,0⟩, ⟨3,0,0⟩, ⟨2,0,0⟩] := by
  refine ⟨by decide, ?_⟩
  have h := C6_capacity_eviction (runPicks 3 [⟨1,0,0⟩, ⟨2,0,0⟩, ⟨3,0,0⟩]) ⟨4,0,0⟩
    (by decide) (by decide) (by decide)
  exact h.1.trans (by decide)

lemma nodup_erase_eq_eraseIdx :
    ∀ (l : List Color) (i : Nat) (hi : i < l.length), l.Nodup →
      ∀ c : Color, l.get ⟨i, hi⟩ = c → l.erase c = l.eraseIdx i := by
  intro l
  induction l with
  | nil => intro i hi; simp at hi
  | cons x t ih =>
    intro i hi hnd c hc
    rcases List.nodup_cons.mp hnd with ⟨hx, ht⟩
    match i with
    | 0 =>
      simp only [List.get] at hc
      subst hc
      rw [List.erase_cons_head, List.eraseIdx_cons_zero]
    | i + 1 =>
      simp only [List.get] at hc
      have hi' : i < t.length := by simpa using hi
      have hmem : c ∈ t := hc ▸ List.get_mem t i hi'
      have hne : x ≠ c := fun h => hx (h ▸ hmem)
      rw [List.erase_cons_tail (by simpa using hne), List.eraseIdx_cons_succ]
      rw [ih i hi' ht c hc]

/-- C7: re-adding a color already present at index `i` of a (valid:
duplicate-free, within-capacity) history moves it to the front —
the new history is the color consed onto the old history with
position `i` removed, nothing is evicted (the length is unchanged),
and the cursor is reset to 0. -/
theorem C7_move_to_front (s : AppState) (c : Color) (i : Nat)
    (hi : i < s.history.length) (hnd : s.history.Nodup)
    (hlen : s.history.length ≤ s.maxHistory)
    (hc : s.history.get ⟨i, hi⟩ = c) :
    (pick_under_cursor (.ok c) s).history = c :: s.history.eraseIdx i ∧
      (pick_under_cursor (.ok c) s).history.length = s.history.length ∧
      (pick_under_cursor (.ok c) s).history_index = 0 := by
  have hmem : c ∈ s.history := hc ▸ List.get_mem _ _ _
  have hh : (pick_under_cursor (.ok c) s).history = histAdd s.maxHistory c s.history := rfl
  have herase : s.history.erase c = s.history.eraseIdx i :=
    nodup_erase_eq_eraseIdx s.history i hi hnd c hc
  have hlen' : (c :: s.history.erase c).length ≤ s.maxHistory := by
    rw [List.length_cons, List.length_erase_of_mem hmem]
    omega
  have hstep : histAdd s.maxHistory c s.history = c :: s.history.erase c := by
    unfold histAdd
    rw [if_pos hmem, List.take_of_length_le hlen']
  refine ⟨by rw [hh, hstep, herase], ?_, rfl⟩
  rw [hh, hstep, herase, List.length_cons, List.length_eraseIdx, if_pos hi]
  omega

/-- Witness for C7: capacity 3, `items == [C, B, A]`, re-adding `B`
(present at index 1) yields `items == [B, C, A]` with cursor 0. -/
theorem C7_move_to_front_witness :
    (pick_under_cursor (.ok ⟨2,0,0⟩) (runPicks 3 [⟨1,0,0⟩, ⟨2,0,0⟩, ⟨3,0,0⟩])).history =
        [⟨2,0,0⟩, ⟨3,0,0⟩, ⟨1,0,0⟩] ∧
      (pick_under_cursor (.ok ⟨2,0,0⟩) (runPicks 3 [⟨1,0,0⟩, ⟨2,0,0⟩, ⟨3,0,0⟩])).history_index = 0 := by
  have h := C7_move_to_front (runPicks 3 [⟨1,0,0⟩, ⟨2,0,0⟩, ⟨3,0,0⟩]) ⟨2,0,0⟩ 1
    (by decide) (by decide) (by decide) (by decide)
  exact ⟨h.1.trans (by decide), h.2.2⟩

/-- C8: a failing sampler call aborts `pick_under_cursor` before any
state is touched: the history, cursor, selected color, rendered rows
and last-sampled color are exactly as before, and the whole state
change is the error status message. -/
theorem C8_pick_failure_atomic (s : AppState) (e : String) :
    (pick_under_cursor (.error e) s).history = s.history ∧
      (pick_under_cursor (.error e) s).history_index = s.history_index ∧
      (pick_under_cursor (.error e) s).selected_rgb = s.selected_rgb ∧
      (pick_under_cursor (.error e) s).current_rgb = s.current_rgb ∧
      (pick_under_cursor (.error e) s).listRows = s.listRows ∧
      pick_under_cursor (.error e) s = { s with status := "取色失败: " ++ e } :=
  ⟨rfl, rfl, rfl, rfl, rfl, rfl⟩

/-- C10: `clear_history` empties the history and the list view, resets
the cursor and the selection — but leaves `current_rgb` untouched, so
after any successful pick followed by a clear, a copy request writes
the hex of that last-sampled color instead of writing nothing. -/
theorem C10_clear_keeps_current :
    (∀ s : AppState,
        clear_history s =
          { s with history := [], listRows := [], selected_rgb := none,
                   history_index := 0, status := "历史已清空" }) ∧
      (∀ (s : AppState) (c : Color), (pick_under_cursor (.ok c) s).current_rgb = some c) ∧
      (∀ (s : AppState) (c : Color), s.current_rgb = some c →
        (clear_history s).history = [] ∧
          copyText (clear_history s) = some (rgbToHexC c)) := by
  refine ⟨fun s => rfl, fun s c => rfl, fun s c hc => ⟨rfl, ?_⟩⟩
  simp [copyText, copy_selected_color, clear_history, hc]

/-- Witness for C10: a pick of `(9, 8, 7)` followed by a clear still
copies `#090807`. -/
theorem C10_clear_keeps_current_witness :
    copyText (clear_history (run [.pickEv (.ok ⟨9,8,7⟩)])) = some "#090807" := by
  have h := C10_clear_keeps_current.2.2 (run [.pickEv (.ok ⟨9,8,7⟩)]) ⟨9,8,7⟩ (by decide)
  exact h.2.trans (by decide)

lemma select_history_preserves (i : Int) (s : AppState) :
    (select_history_index i s).history = s.history ∧
      (select_history_index i s).listRows = s.listRows ∧
      (select_history_index i s).current_rgb = s.current_rgb ∧
      (select_history_index i s).maxHistory = s.maxHistory := by
  rcases hh : s.history with _ | ⟨x, xs⟩ <;>
    simp [select_history_index, hh]

lemma select_history_in_range (i : Int) (s : AppState) (x : Color) (xs : List Color)
    (hh : s.history = x :: xs) (h0 : 0 ≤ i) (h1 : i < (s.history.length : Int)) :
    (select_history_index i s).history_index = i.toNat ∧
      (select_history_index i s).selected_rgb =
        some (s.history.getD i.toNat ⟨0, 0, 0⟩) := by
  have h1' : i < (xs.length : Int) + 1 := by
    rw [hh] at h1
    simpa using h1
  have hi : i.toNat < (x :: xs).length := by
    simp only [List.length_cons]
    omega
  have hclamp : (0 ⊔ i ⊓ (xs.length : Int)).toNat = i.toNat := by omega
  simp [select_history_index, hh]
  refine ⟨hclamp, ?_⟩
  simp only [hclamp]
  rw [List.getElem?_eq_getElem hi]
  rfl

lemma keyPress_history (k : Key) (s : AppState) : (keyPressEvent k s).history = s.history := by
  rcases hh : s.history with _ | ⟨x, xs⟩
  · simp [keyPressEvent, hh]
  · rcases k with _ | _ | _ <;> simp [keyPressEvent, hh, select_history_preserves]

lemma keyPress_down_index (s : AppState) (x : Color) (xs : List Color)
    (hh : s.history = x :: xs) :
    (keyPressEvent .down s).history_index = (s.history_index + 1) % s.history.length := by
  have hlen : 0 < s.history.length := by rw [hh]; simp
  have hn0 : (s.history.length : Int) ≠ 0 := by omega
  have h0 : 0 ≤ ((s.history_index : Int) + 1) % (s.history.length : Int) :=
    Int.emod_nonneg _ hn0
  have h1 : ((s.history_index : Int) + 1) % (s.history.length : Int) <
      (s.history.length : Int) :=
    Int.emod_lt_of_pos _ (by omega)
  have hkey : (keyPressEvent .down s).history_index =
      (select_history_index (((s.history_index : Int) + 1) % (s.history.length : Int)) s).history_index := by
    simp [keyPressEvent, hh]
  rw [hkey, (select_history_in_range _ s x xs hh h0 h1).1]
  have key : (((s.history_index + 1) % s.history.length : Nat) : Int) =
      ((s.history_index : Int) + 1) % (s.history.length : Int) := by
    rw [Int.natCast_mod]
    push_cast
    rfl
  omega

lemma keyPress_up_index (s : AppState) (x : Color) (xs : List Color)
    (hh : s.history = x :: xs) :
    ((keyPressEvent .up s).history_index : Int) =
      ((s.history_index : Int) - 1) % (s.history.length : Int) := by
  have hlen : 0 < s.history.length := by rw [hh]; simp
  have hn0 : (s.history.length : Int) ≠ 0 := by omega
  have h0 : 0 ≤ ((s.history_index : Int) - 1) % (s.history.length : Int) :=
    Int.emod_nonneg _ hn0
  have h1 : ((s.history_index : Int) - 1) % (s.history.length : Int) <
      (s.history.length : Int) :=
    Int.emod_lt_of_pos _ (by omega)
  have hkey : (keyPressEvent .up s).history_index =
      (select_history_index (((s.history_index : Int) - 1) % (s.history.length : Int)) s).history_index := by
    simp [keyPressEvent, hh]
  rw [hkey, (select_history_in_range _ s x xs hh h0 h1).1]
  omega

lemma down_iterate (s : AppState) (hne : s.history ≠ [])
    (hidx : s.history_index < s.history.length) (k : Nat) :
    ((keyPressEvent .down)^[k] s).history = s.history ∧
      ((keyPressEvent .down)^[k] s).history_index =
        (s.history_index + k) % s.history.length := by
  induction k with
  | zero =>
    refine ⟨rfl, ?_⟩
    rw [Function.iterate_zero_apply, Nat.add_zero, Nat.mod_eq_of_lt hidx]
  | succ k ih =>
    obtain ⟨hh, hidx'⟩ := ih
    rw [Function.iterate_succ_apply']
    have hne' : ((keyPressEvent .down)^[k] s).history ≠ [] := by rw [hh]; exact hne
    rcases hcons : ((keyPressEvent .down)^[k] s).history with _ | ⟨x, xs⟩
    · exact absurd hcons hne'
    have hdown := keyPress_down_index _ x xs hcons
    refine ⟨by rw [keyPress_history, hh], ?_⟩
    rw [hdown, hidx', hh, ← hh, hh]
    rw [Nat.mod_add_mod, Nat.add_assoc]

/-- C3: with a non-empty history of size `n` and a valid cursor, the
Down key sets the cursor to `(cursor + 1) % n` and the Up key to the
true-mathematical-modulo `(cursor - 1) mod n` (nonnegative), so
navigation wraps: from cursor 0, Up lands on `n - 1` and `n` Down
steps return to 0; on an empty history both keys leave the state
unchanged. -/
theorem C3_step_cyclic (s : AppState) (hne : s.history ≠ [])
    (hidx : s.history_index < s.history.length) :
    (keyPressEvent .down s).history_index = (s.history_index + 1) % s.history.length ∧
      ((keyPressEvent .up s).history_index : Int) =
        ((s.history_index : Int) - 1) % (s.history.length : Int) ∧
      (s.history_index = 0 →
        (keyPressEvent .up s).history_index = s.history.length - 1) ∧
      (s.history_index = 0 →
        ((keyPressEvent .down)^[s.history.length] s).history_index = 0) ∧
      (∀ s' : AppState, s'.history = [] →
        keyPressEvent .up s' = s' ∧ keyPressEvent .down s' = s') := by
  obtain ⟨x, xs, hh⟩ := List.exists_cons_of_ne_nil hne
  have hlen : 0 < s.history.length := by rw [hh]; simp
  refine ⟨keyPress_down_index s x xs hh, keyPress_up_index s x xs hh, ?_, ?_, ?_⟩
  · intro h0
    have hup := keyPress_up_index s x xs hh
    rw [h0] at hup
    have hneg : ((0 : Nat) : Int) - 1 = -1 := by norm_num
    rw [hneg] at hup
    have h2 := Int.add_mul_emod_self_left ((s.history.length : Int) - 1)
      (s.history.length : Int) (-1)
    have h3 : ((s.history.length : Int) - 1 + (s.history.length : Int) * (-1)) = -1 := by
      ring
    rw [h3] at h2
    rw [h2, Int.emod_eq_of_lt (by omega) (by omega)] at hup
    omega
  · intro h0
    have := (down_iterate s hne hidx s.history.length).2
    rw [h0, Nat.zero_add, Nat.mod_self] at this
    exact this
  · intro s' h'
    constructor <;> simp [keyPressEvent, h']

/-- A character that cannot interfere with the row parser: not a
space, parenthesis or comma. -/
def plainChar (ch : Char) : Prop := ch ≠ ' ' ∧ ch ≠ '(' ∧ ch ≠ ')' ∧ ch ≠ ','

instance (ch : Char) : Decidable (plainChar ch) := by
  unfold plainChar
  infer_instance

lemma getD_mem_or (l : List Char) (n : Nat) (d : Char) :
    l.getD n d ∈ l ∨ l.getD n d = d := by
  rw [List.getD_eq_getElem?_getD]
  cases h : l[n]? with
  | none => right; rfl
  | some x => left; simpa using List.getElem?_mem h

lemma plainChar_decDigit (n : Nat) : plainChar (decDigit n) := by
  have hall : ∀ ch ∈ ['0','1','2','3','4','5','6','7','8','9'], plainChar ch := by decide
  have h := getD_mem_or ['0','1','2','3','4','5','6','7','8','9'] n 'X'
  show plainChar ((['0','1','2','3','4','5','6','7','8','9']).getD n 'X')
  rcases h with h | h
  · exact hall _ h
  · rw [h]; decide

lemma plainChar_decDigitsAux :
    ∀ fuel n ch, ch ∈ decDigitsAux fuel n → plainChar ch := by
  intro fuel
  induction fuel with
  | zero => intro n ch h; simp [decDigitsAux] at h
  | succ fuel ih =>
    intro n ch h
    rw [decDigitsAux] at h
    by_cases h10 : n < 10
    · rw [if_pos h10] at h
      simp only [List.mem_singleton] at h
      exact h ▸ plainChar_decDigit n
    · rw [if_neg h10] at h
      rcases List.mem_append.mp h with h | h
      · exact ih _ _ h
      · simp only [List.mem_singleton] at h
        exact h ▸ plainChar_decDigit (n % 10)

lemma plainChar_decDigits (n : Nat) (ch : Char) (h : ch ∈ decDigits n) :
    plainChar ch := plainChar_decDigitsAux _ _ _ h

lemma decDigits_ne_nil (n : Nat) : decDigits n ≠ [] := by
  rw [decDigits, decDigitsAux]
  split <;> simp

lemma takeWhile_stop (xs zs : List Char) (hall : ∀ x ∈ xs, x ≠ ' ') :
    List.takeWhile (fun ch => ch ≠ ' ') (xs ++ ' ' :: zs) = xs := by
  induction xs with
  | nil => simp [List.takeWhile_cons]
  | cons x xt ih =>
    have hx : x ≠ ' ' := hall x (by simp)
    have ih' := ih (fun y hy => hall y (List.mem_cons_of_mem x hy))
    simp only [List.cons_append, List.takeWhile_cons]
    simp only [ne_eq, decide_not] at ih' ⊢
    simp [hx, ih']

/-- String-level specification of `txt.split()[-1]` on texts whose last
token is preceded by a space: it returns exactly that token. -/
lemma lastWsToken_append (A B : List Char) (hBne : B ≠ [])
    (hBs : ∀ ch ∈ B, ch ≠ ' ') :
    lastWsToken (A ++ ' ' :: B) = some B := by
  unfold lastWsToken
  rw [List.reverse_append, List.reverse_cons, List.append_assoc, List.singleton_append]
  have hrevne : B.reverse ≠ [] := by simpa using hBne
  obtain ⟨y, ys, hrev⟩ := List.exists_cons_of_ne_nil hrevne
  have hy : y ≠ ' ' :=
    hBs y (List.mem_reverse.mp (by rw [hrev]; exact List.mem_cons_self y ys))
  rw [hrev, List.cons_append, List.dropWhile_cons]
  simp only [hy, decide_eq_true_eq, if_false, ite_false, if_neg]
  rw [← List.cons_append, ← hrev]
  have hall : ∀ x ∈ B.reverse, x ≠ ' ' := by
    intro x hx
    exact hBs x (List.mem_reverse.mp hx)
  rw [takeWhile_stop B.reverse A.reverse hall, List.reverse_reverse]

lemma stripParens_digits_close (ds : List Char) (hne : ds ≠ [])
    (hd : ∀ ch ∈ ds, plainChar ch) :
    stripParens (ds ++ [')']) = ds := by
  obtain ⟨d, dt, rfl⟩ := List.exists_cons_of_ne_nil hne
  have hdp := hd d (List.mem_cons_self d dt)
  have hdrop1 : List.dropWhile (fun ch => ch = '(' ∨ ch = ')') ((d :: dt) ++ [')']) =
      (d :: dt) ++ [')'] := by
    rw [List.cons_append, List.dropWhile_cons]
    simp [hdp.2.1, hdp.2.2.1]
  have hrevne : (d :: dt).reverse ≠ [] := by simp
  obtain ⟨z, zs, hzrev⟩ := List.exists_cons_of_ne_nil hrevne
  have hz : plainChar z :=
    hd z (List.mem_reverse.mp (by rw [hzrev]; exact List.mem_cons_self z zs))
  unfold stripParens
  rw [hdrop1, List.reverse_append,
    show ([')'] : List Char).reverse = [')'] from rfl, List.singleton_append,
    List.dropWhile_cons]
  simp only [decide_eq_true_eq, or_true, if_true, ite_true]
  rw [hzrev, List.dropWhile_cons]
  simp only [hz.2.1, hz.2.2.1, decide_eq_true_eq, or_self, ite_false]
  rw [← hzrev, List.reverse_reverse]

lemma splitCommaAux_no_comma :
    ∀ (l acc : List Char), (∀ ch ∈ l, ch ≠ ',') →
      splitCommaAux l acc = [acc.reverse ++ l] := by
  intro l
  induction l with
  | nil => intro acc h; simp [splitCommaAux]
  | cons c ct ih =>
    intro acc h
    have hc : c ≠ ',' := h c (by simp)
    rw [splitCommaAux, if_neg hc,
      ih (c :: acc) (fun y hy => h y (List.mem_cons_of_mem c hy))]
    simp

/-- The central parsing fact behind the list-click handler: the text
`refresh_history_list` renders for ANY color never parses back, because
`split()[-1]` grabs only the tail `"b)"` of the tuple repr (the repr
contains spaces), which strips and comma-splits to one field instead of
three. -/
lemma parseRowColor_renderRow (c : Color) : parseRowColor (renderRow c) = none := by
  have hBs : ∀ ch ∈ decDigits c.b ++ [')'], ch ≠ ' ' := by
    intro ch hch
    rcases List.mem_append.mp hch with h | h
    · exact (plainChar_decDigits c.b ch h).1
    · simp only [List.mem_singleton] at h
      subst h
      decide
  have hBne : decDigits c.b ++ [')'] ≠ [] := by simp
  have hsplit : rowChars c =
      (('#' :: (py02X c.r ++ py02X c.g ++ py02X c.b)) ++ [' ',' ',' ',' '] ++
        ('(' :: decDigits c.r) ++ [','] ++ (' ' :: decDigits c.g) ++ [',']) ++
        ' ' :: (decDigits c.b ++ [')']) := by
    simp [rowChars, tupleChars]
  unfold parseRowColor
  rw [show (renderRow c).toList = rowChars c from rfl, hsplit,
    lastWsToken_append _ _ hBne hBs]
  simp only [stripParens_digits_close (decDigits c.b) (decDigits_ne_nil c.b)
    (fun ch h => plainChar_decDigits c.b ch h)]
  simp only [splitComma,
    splitCommaAux_no_comma (decDigits c.b) []
      (fun ch h => (plainChar_decDigits c.b ch h).2.2.2)]

/-- C1 (code bug): the claim says clicking list row `i` selects that
entry (`history_index := i`, `selected_rgb := items[i]`), but
`on_history_clicked` re-parses the rendered row text and that parse
fails for EVERY color (first conjunct), so a click only sets the error
status and leaves the cursor and the selection untouched — shown
concretely for the state after picking `(255, 0, 0)` and clicking
row 0. -/
theorem C1_click_never_selects :
    (∀ c : Color, parseRowColor (renderRow c) = none) ∧
      parseRowColor "" = none ∧
      (run [.pickEv (.ok ⟨255,0,0⟩)]).listRows.getD 0 "" = "#FF0000    (255, 0, 0)" ∧
      stepEv (.clickEv 0) (run [.pickEv (.ok ⟨255,0,0⟩)]) =
        { run [.pickEv (.ok ⟨255,0,0⟩)] with status := "选择历史项出错" } ∧
      (stepEv (.clickEv 0) (run [.pickEv (.ok ⟨255,0,0⟩)])).history_index =
        (run [.pickEv (.ok ⟨255,0,0⟩)]).history_index ∧
      (stepEv (.clickEv 0) (run [.pickEv (.ok ⟨255,0,0⟩)])).selected_rgb =
        (run [.pickEv (.ok ⟨255,0,0⟩)]).selected_rgb :=
  ⟨parseRowColor_renderRow, by decide, by decide, by decide, by decide, by decide⟩

/-- Witness for C3: after three picks the cursor is 0 on a 3-element
history; one Down step moves it to `(0 + 1) % 3 = 1`. -/
theorem C3_step_cyclic_witness :
    (keyPressEvent .down
      (run [.pickEv (.ok ⟨1,0,0⟩), .pickEv (.ok ⟨2,0,0⟩), .pickEv (.ok ⟨3,0,0⟩)])).history_index = 1 := by
  have h := C3_step_cyclic
    (run [.pickEv (.ok ⟨1,0,0⟩), .pickEv (.ok ⟨2,0,0⟩), .pickEv (.ok ⟨3,0,0⟩)])
    (by decide) (by decide)
  exact h.1.trans (by decide)

/-- The state invariant every reachable window state satisfies: the
capacity is the program's `MAX_HISTORY`; with an empty history nothing
is selected; with a non-empty history the cursor is in range and the
selection is exactly the color under the cursor; and the list widget
shows exactly the rendered history. -/
structure StateInv (s : AppState) : Prop where
  cap_eq : s.maxHistory = MAX_HISTORY
  empty_sel : s.history = [] → s.selected_rgb = none
  idx_lt : s.history ≠ [] → s.history_index < s.history.length
  sel_eq : s.history ≠ [] →
    s.selected_rgb = some (s.history.getD s.history_index ⟨0, 0, 0⟩)
  rows_eq : s.listRows = s.history.map renderRow

lemma copy_fst_fields (s : AppState) :
    (copy_selected_color s).1.history = s.history ∧
      (copy_selected_color s).1.history_index = s.history_index ∧
      (copy_selected_color s).1.selected_rgb = s.selected_rgb ∧
      (copy_selected_color s).1.current_rgb = s.current_rgb ∧
      (copy_selected_color s).1.listRows = s.listRows ∧
      (copy_selected_color s).1.maxHistory = s.maxHistory := by
  unfold copy_selected_color
  rcases hsel : s.selected_rgb with _ | c
  · rcases hh : s.history with _ | ⟨x, xs⟩
    · rcases hc : s.current_rgb with _ | c <;> simp [hsel, hh, hc]
    · simp [hsel, hh]
  · simp [hsel]

lemma register_fst_fields (rp rc : Except String Unit) (s : AppState) :
    (register_hotkeys rp rc s).1.history = s.history ∧
      (register_hotkeys rp rc s).1.history_index = s.history_index ∧
      (register_hotkeys rp rc s).1.selected_rgb = s.selected_rgb ∧
      (register_hotkeys rp rc s).1.current_rgb = s.current_rgb ∧
      (register_hotkeys rp rc s).1.listRows = s.listRows ∧
      (register_hotkeys rp rc s).1.maxHistory = s.maxHistory := by
  rcases rp with e | u <;> rcases rc with e' | u' <;> simp [register_hotkeys]

lemma inv_select (s : AppState) (h : StateInv s) (i : Int) (x : Color) (xs : List Color)
    (hh : s.history = x :: xs) (h0 : 0 ≤ i) (h1 : i < (s.history.length : Int)) :
    StateInv (select_history_index i s) := by
  obtain ⟨hp1, hp2, hp3, hp4⟩ := select_history_preserves i s
  obtain ⟨hr1, hr2⟩ := select_history_in_range i s x xs hh h0 h1
  constructor
  · rw [hp4]; exact h.cap_eq
  · intro he; rw [hp1, hh] at he; exact absurd he (by simp)
  · intro _
    rw [hp1, hr1]
    omega
  · intro _
    rw [hr2, hr1, hp1]
  · rw [hp2, hp1, h.rows_eq]

lemma inv_of_fields (s s' : AppState) (h : StateInv s)
    (h1 : s'.history = s.history) (h2 : s'.history_index = s.history_index)
    (h3 : s'.selected_rgb = s.selected_rgb) (h5 : s'.listRows = s.listRows)
    (h6 : s'.maxHistory = s.maxHistory) : StateInv s' := by
  constructor
  · rw [h6]; exact h.cap_eq
  · intro he; rw [h1] at he; rw [h3]; exact h.empty_sel he
  · intro hne; rw [h1] at hne; rw [h2, h1]; exact h.idx_lt hne
  · intro hne; rw [h1] at hne; rw [h3, h2, h1]; exact h.sel_eq hne
  · rw [h5, h1]; exact h.rows_eq

lemma inv_step (e : Event) (s : AppState) (h : StateInv s) : StateInv (stepEv e s) := by
  cases e with
  | pickEv res =>
    cases res with
    | error e =>
      exact inv_of_fields s (stepEv (.pickEv (.error e)) s) h rfl rfl rfl rfl rfl
    | ok c =>
      have hcap : 0 < s.maxHistory := by rw [h.cap_eq]; decide
      obtain ⟨t, ht⟩ := histAdd_cons s.maxHistory c s.history hcap
      have hh : (stepEv (Event.pickEv (Except.ok c)) s).history = c :: t := ht
      constructor
      · exact h.cap_eq
      · intro he
        rw [hh] at he
        exact absurd he (by simp)
      · intro _
        rw [hh]
        exact Nat.succ_pos t.length
      · intro _
        show (match histAdd s.maxHistory c s.history with
              | [] => some c
              | x :: _ => some x) =
          some ((stepEv (Event.pickEv (Except.ok c)) s).history.getD
            (stepEv (Event.pickEv (Except.ok c)) s).history_index ⟨0, 0, 0⟩)
        rw [show (stepEv (Event.pickEv (Except.ok c)) s).history_index = 0 from rfl, hh, ht]
        rfl
      · rfl
  | keyEv k =>
    rcases hh : s.history with _ | ⟨x, xs⟩
    · have heq : stepEv (.keyEv k) s = s := by
        simp [stepEv, keyPressEvent, hh]
      rw [heq]
      exact h
    · have hlen : 0 < s.history.length := by rw [hh]; simp
      have hn0 : (s.history.length : Int) ≠ 0 := by omega
      cases k with
      | up =>
        have heq : stepEv (.keyEv .up) s =
            select_history_index
              (((s.history_index : Int) - 1) % (s.history.length : Int)) s := by
          simp [stepEv, keyPressEvent, hh]
        rw [heq]
        exact inv_select s h _ x xs hh (Int.emod_nonneg _ hn0)
          (Int.emod_lt_of_pos _ (by omega))
      | down =>
        have heq : stepEv (.keyEv .down) s =
            select_history_index
              (((s.history_index : Int) + 1) % (s.history.length : Int)) s := by
          simp [stepEv, keyPressEvent, hh]
        rw [heq]
        exact inv_select s h _ x xs hh (Int.emod_nonneg _ hn0)
          (Int.emod_lt_of_pos _ (by omega))
      | other =>
        have heq : stepEv (.keyEv .other) s = s := by
          simp [stepEv, keyPressEvent, hh]
        rw [heq]
        exact h
  | clickEv row =>
    have hparse : parseRowColor (s.listRows.getD row "") = none := by
      rw [h.rows_eq]
      rcases lt_or_ge row (s.history.map renderRow).length with hlt | hge
      · rw [List.getD_eq_getElem?_getD, List.getElem?_eq_getElem hlt]
        simp only [Option.getD_some]
        rw [List.getElem_map]
        exact parseRowColor_renderRow _
      · rw [List.getD_eq_default _ _ hge]
        decide
    have heq : stepEv (.clickEv row) s = { s with status := "选择历史项出错" } := by
      show on_history_clicked (s.listRows.getD row "") row s = _
      unfold on_history_clicked
      rw [hparse]
    rw [heq]
    exact inv_of_fields s _ h rfl rfl rfl rfl rfl
  | copyEv =>
    obtain ⟨h1, h2, h3, h4, h5, h6⟩ := copy_fst_fields s
    exact inv_of_fields s (stepEv Event.copyEv s) h h1 h2 h3 h5 h6
  | clearEv =>
    constructor
    · exact h.cap_eq
    · intro _; rfl
    · intro hne; exact absurd rfl hne
    · intro hne; exact absurd rfl hne
    · rfl
  | hotkeysEv rp rc =>
    obtain ⟨h1, h2, h3, h4, h5, h6⟩ := register_fst_fields rp rc s
    exact inv_of_fields s (stepEv (Event.hotkeysEv rp rc) s) h h1 h2 h3 h5 h6

lemma inv_init : StateInv (initState MAX_HISTORY) := by
  constructor
  · rfl
  · intro _; rfl
  · intro hne; exact absurd rfl hne
  · intro hne; exact absurd rfl hne
  · rfl

lemma inv_foldl : ∀ (evs : List Event) (s : AppState), StateInv s →
    StateInv (evs.foldl (fun s e => stepEv e s) s) := by
  intro evs
  induction evs with
  | nil => intro s h; exact h
  | cons e evs ih => intro s h; exact ih (stepEv e s) (inv_step e s h)

lemma run_inv (evs : List Event) : StateInv (run evs) :=
  inv_foldl evs (initState MAX_HISTORY) inv_init

lemma reachable_inv (s : AppState) (h : Reachable s) : StateInv s := by
  obtain ⟨evs, he⟩ := h
  exact he ▸ run_inv evs

/-- Modelled from the spec: "hex color format is uppercase `#RRGGBB`" —
a seven-character string, a leading `#` followed by six uppercase
hexadecimal digits. -/
def specHexFormat (str : String) : Prop :=
  str.data.length = 7 ∧ str.data.headD 'X' = '#' ∧
    ∀ ch ∈ str.data.tail, ch ∈ upperHexDigits

lemma hexDigit_mem (k : Nat) (h : k < 16) : hexDigit k ∈ upperHexDigits := by
  have hall : ∀ j, j < 16 → (upperHexDigits.getD j 'X') ∈ upperHexDigits := by decide
  exact hall k h

lemma hexDigits_small (n : Nat) (h : n < 16) : hexDigits n = [hexDigit n] := by
  rw [hexDigits, hexDigitsAux, if_pos h]

lemma hexDigits_two (n : Nat) (h16 : 16 ≤ n) (h : n < 256) :
    hexDigits n = [hexDigit (n / 16), hexDigit (n % 16)] := by
  obtain ⟨m, rfl⟩ : ∃ m, n = m + 1 := ⟨n - 1, by omega⟩
  have hq : hexDigitsAux (m + 1) ((m + 1) / 16) = [hexDigit ((m + 1) / 16)] := by
    rw [hexDigitsAux, if_pos (by omega)]
  rw [hexDigits, hexDigitsAux, if_neg (by omega), hq]
  rfl

lemma py02X_eq (n : Nat) (h : n < 256) :
    py02X n = [hexDigit (n / 16), hexDigit (n % 16)] := by
  rcases lt_or_ge n 16 with h16 | h16
  · rw [py02X, hexDigits_small n h16, Nat.div_eq_of_lt h16, Nat.mod_eq_of_lt h16]
    rfl
  · rw [py02X, hexDigits_two n h16 h]
    rfl

lemma specHexFormat_rgb (r g b : Nat) (hr : r < 256) (hg : g < 256) (hb : b < 256) :
    specHexFormat (rgb_to_hex r g b) := by
  unfold specHexFormat rgb_to_hex
  rw [py02X_eq r hr, py02X_eq g hg, py02X_eq b hb]
  refine ⟨rfl, rfl, ?_⟩
  intro ch hch
  simp at hch
  rcases hch with rfl | rfl | rfl | rfl | rfl | rfl <;> exact hexDigit_mem _ (by omega)

/-- Counterexample to C2 as stated: after picking `(1, 2, 3)` and then
clearing, the history is empty, yet a copy request still writes
`#010203` (the surviving `current_rgb`) to the clipboard rather than
writing nothing. -/
theorem C2_counterexample_empty_copy :
    (run [.pickEv (.ok ⟨1,2,3⟩), .clearEv]).history = [] ∧
      copyText (run [.pickEv (.ok ⟨1,2,3⟩), .clearEv]) = some "#010203" := by
  decide

/-- C2 (amended): in every reachable state, while the history is
non-empty a copy request writes exactly `rgb_to_hex` of the color under
the cursor (`items[cursor]`) — a string in uppercase `#RRGGBB` format
for 8-bit components (third conjunct); when the history is empty the
selection is indeed `None`, but the clipboard then receives the hex of
the last-sampled color (`current_rgb`) if one exists, and only writes
nothing when no pick ever succeeded. -/
theorem C2_copy_selected_hex (s : AppState) (hs : Reachable s) :
    (s.history ≠ [] →
      copyText s = some (rgbToHexC (s.history.getD s.history_index ⟨0, 0, 0⟩))) ∧
      (s.history = [] → s.selected_rgb = none ∧
        copyText s = Option.map rgbToHexC s.current_rgb) ∧
      (∀ r g b : Nat, r < 256 → g < 256 → b < 256 →
        specHexFormat (rgb_to_hex r g b)) := by
  have hinv := reachable_inv s hs
  refine ⟨?_, ?_, fun r g b hr hg hb => specHexFormat_rgb r g b hr hg hb⟩
  · intro hne
    simp [copyText, copy_selected_color, hinv.sel_eq hne]
  · intro he
    have hsel := hinv.empty_sel he
    refine ⟨hsel, ?_⟩
    rcases hc : s.current_rgb with _ | c <;>
      simp [copyText, copy_selected_color, hsel, he, hc]

/-- Witness for C2 (amended): after one pick of `(16, 32, 48)` the copy
request writes `#102030`. -/
theorem C2_copy_selected_hex_witness :
    copyText (run [.pickEv (.ok ⟨16,32,48⟩)]) = some "#102030" := by
  have h := C2_copy_selected_hex (run [.pickEv (.ok ⟨16,32,48⟩)])
    ⟨[.pickEv (.ok ⟨16,32,48⟩)], rfl⟩
  exact (h.1 (by decide)).trans (by decide)

lemma reg_pick_handler (rp rc : Except String Unit) (s : AppState) :
    (register_hotkeys rp rc s).1.pick_handler =
      match rp with
      | .ok _ => some s.pick_hotkey
      | .error _ => none := by
  rcases rp with e | u <;> rcases rc with e' | u' <;> simp [register_hotkeys]

lemma reg_copy_handler (rp rc : Except String Unit) (s : AppState) :
    (register_hotkeys rp rc s).1.copy_handler =
      match rc with
      | .ok _ => some s.copy_hotkey
      | .error _ => none := by
  rcases rp with e | u <;> rcases rc with e' | u' <;> simp [register_hotkeys]

lemma reg_trace (rp rc : Except String Unit) (s : AppState) :
    (register_hotkeys rp rc s).2.1 =
      ((if s.pick_handler.isSome then [HkAction.removePick] else []) ++
        (if s.copy_handler.isSome then [HkAction.removeCopy] else [])) ++
      [HkAction.addPick s.pick_hotkey, HkAction.addCopy s.copy_hotkey] := by
  rcases rp with e | u <;> rcases rc with e' | u' <;> simp [register_hotkeys]

lemma reg_errs (rp rc : Except String Unit) (s : AppState) :
    (register_hotkeys rp rc s).2.2 =
      (match rp with
        | .ok _ => []
        | .error e => ["注册取色热键失败: " ++ e]) ++
      (match rc with
        | .ok _ => []
        | .error e => ["注册复制热键失败: " ++ e]) := by
  rcases rp with e | u <;> rcases rc with e' | u' <;> simp [register_hotkeys]

/-- C9: hotkey re-registration treats the two actions independently —
each handler ends bound exactly when its own registrar call succeeded
(and cleared when it failed), each outcome is unaffected by the other
action's result, every unregistration in the registrar-call trace
precedes every registration attempt, and both failure messages are
collected (in order) before being reported. -/
theorem C9_rebind_independent (rp rc : Except String Unit) (s : AppState) :
    ((register_hotkeys rp rc s).1.pick_handler =
        match rp with
        | .ok _ => some s.pick_hotkey
        | .error _ => none) ∧
      ((register_hotkeys rp rc s).1.copy_handler =
        match rc with
        | .ok _ => some s.copy_hotkey
        | .error _ => none) ∧
      (∀ rc', (register_hotkeys rp rc s).1.pick_handler =
        (register_hotkeys rp rc' s).1.pick_handler) ∧
      (∀ rp', (register_hotkeys rp rc s).1.copy_handler =
        (register_hotkeys rp' rc s).1.copy_handler) ∧
      ((register_hotkeys rp rc s).2.1 =
        ((register_hotkeys rp rc s).2.1.filter (fun a => a.isRemove)) ++
          ((register_hotkeys rp rc s).2.1.filter (fun a => ! a.isRemove))) ∧
      ((register_hotkeys rp rc s).2.2 =
        (match rp with
          | .ok _ => []
          | .error e => ["注册取色热键失败: " ++ e]) ++
        (match rc with
          | .ok _ => []
          | .error e => ["注册复制热键失败: " ++ e])) := by
  refine ⟨reg_pick_handler rp rc s, reg_copy_handler rp rc s, ?_, ?_, ?_,
    reg_errs rp rc s⟩
  · intro rc'
    rw [reg_pick_handler rp rc s, reg_pick_handler rp rc' s]
  · intro rp'
    rw [reg_copy_handler rp rc s, reg_copy_handler rp' rc s]
  · rw [reg_trace rp rc s]
    by_cases hp : s.pick_handler.isSome <;> by_cases hq : s.copy_handler.isSome <;>
      simp [hp, hq, HkAction.isRemove]
